import Mathlib

/-!
# Verification of the generator-based state machine dispatch core

This development shallowly embeds the dispatch core of the repository
(`state_machine`, `run_sm`, `iter_sm` in `smachine.py` / `state.py`) and
proves properties of it.

The Python code is built on generators.  A *child state* is a generator
object: it can be started (`state.next()`), resumed (`state.send(v)`) and
closed (`state.close()`).  We embed a child state as a `ChildModel`: a type
`σ` of internal generator states together with `start` (factory invocation
fused with the first `next()` call), `send`, and `close` functions.  A
resumption either yields a `(ctx, vec, evt)` triple and a new internal
state, raises `StopIteration` (the generator returned — the completion
signal), or raises some other exception (a fault from application code).
`close` returns the trace of exit actions (`finally` blocks) that fire.

The dispatcher produced by `state_machine(state_factory, transition_func)`
is embedded by `dispStep`, a fueled interpreter of the `while True` loop of
the inner generator `sm` (`smachine.py` lines 15-42).  Fuel bounds only the
*internal* re-evaluation loop iterations within one caller-visible
resumption; `DispRes.nofuel` marks runs that exceed it and is excluded from
theorems (the Python loop can genuinely diverge, e.g. when the transition
function keeps returning the id of an exhausted child).

Life-cycle instrumentation: resumptions and closes carry a trace of
`LifeEvt` events (`created l` when a state instance labelled `l` is
created, `exited l` when its exit action fires), used to state the closing
guarantees.
-/

namespace PySM

/-- A life-cycle event: creation of a state instance, or the firing of its
exit action (its `finally` block / `close`). -/
inductive LifeEvt (L : Type) where
  | created (l : L)
  | exited (l : L)
  deriving DecidableEq, Repr

/-- Result of one resumption of a child generator:
`yielded` — the generator suspended at `yield (c, vec, e)` with new internal
state `s` (emitting life-cycle trace `tr` on the way);
`stop` — the generator returned, i.e. `StopIteration` (the completion
signal); its own `finally` code has already run, accounted inside `tr`;
`fault` — an exception other than `StopIteration` propagated out of the
generator (its `finally` code ran during unwinding, accounted in `tr`);
`nofuel` — the (fueled model of the) generator ran out of fuel. -/
inductive ChildRes (σ C I E L : Type) where
  | yielded (c : C) (vec : List I) (e : Option E) (s : σ) (tr : List (LifeEvt L))
  | stop (tr : List (LifeEvt L))
  | fault (tr : List (LifeEvt L))
  | nofuel
  deriving DecidableEq, Repr

/-- A model of the child states handled by one dispatcher level.
`start c i e` is `state_factory(ctx, state_id, evt)` immediately followed by
the first `state.next()` (exactly how `sm` uses the factory);
`send s c i e` is `state.send((ctx, state_id, evt))` on a generator with
internal state `s`; `close s` is `state.close()`, returning the trace of
exit actions that fire. -/
structure ChildModel (σ C I E L : Type) where
  start : C → I → Option E → ChildRes σ C I E L
  send : σ → C → I → Option E → ChildRes σ C I E L
  close : σ → List (LifeEvt L)

/-- The dispatcher's child slot: the Python local `state`, which is `None`
initially (`empty`), holds a suspended generator (`live s`), or holds a
generator that has already finished — by `StopIteration` or by a fault —
for which `close()` and `send()` are no-ops/immediate `StopIteration`
(`exhausted`). -/
inductive Slot (σ : Type) where
  | empty
  | live (s : σ)
  | exhausted
  deriving DecidableEq, Repr

/-- The dispatcher's own mutable state at a suspension point: the locals
`state_id` and `state` of `sm` in `smachine.py`. -/
structure DispCfg (σ I : Type) where
  state_id : Option I
  slot : Slot σ
  deriving DecidableEq, Repr

/-- Instrumentation collected during one caller-visible resumption of the
dispatcher: the arguments of every transition-function consultation, the
ids for which the state factory was invoked (`entries`), the `(ctx,
state_id, evt)` triples sent to an existing child (`stays`, including sends
to an exhausted child, which raise `StopIteration` immediately), and the
number of completion signals absorbed (`stops`). -/
structure DispStats (C I E : Type) where
  tfCalls : List (Option I × Option E)
  entries : List I
  stays : List (C × I × Option E)
  stops : Nat
  deriving DecidableEq, Repr

/-- The empty instrumentation record. -/
def DispStats.empty : DispStats C I E := ⟨[], [], [], 0⟩

/-- Prepend the data of one internal-loop iteration to a stats record. -/
def DispStats.addIter (tfArg : Option I × Option E) (ent : List I)
    (st : List (C × I × Option E)) (stopped : Nat) (r : DispStats C I E) :
    DispStats C I E :=
  ⟨tfArg :: r.tfCalls, ent ++ r.entries, st ++ r.stays, stopped + r.stops⟩

/-- Result of one caller-visible resumption of the dispatcher `sm`:
`yielded` — `sm` suspended at its `yield (ctx, s_id_vec + [state_id],
evt)` with updated locals `cfg`; `finished` — `sm` returned
(`StopIteration` to its caller), its `finally` having emitted `tr`;
`fault` — an exception propagated out of `sm` after its `finally` ran;
`nofuel` — internal-loop fuel exhausted. -/
inductive DispRes (σ C I E L : Type) where
  | yielded (c : C) (vec : List I) (e : Option E) (cfg : DispCfg σ I)
      (tr : List (LifeEvt L))
  | finished (tr : List (LifeEvt L))
  | fault (tr : List (LifeEvt L))
  | nofuel
  deriving DecidableEq, Repr

/-- Prepend earlier life-cycle events to the trace of a dispatcher result. -/
def DispRes.addTr (pre : List (LifeEvt L)) :
    DispRes σ C I E L → DispRes σ C I E L
  | yielded c v e cfg tr => yielded c v e cfg (pre ++ tr)
  | finished tr => finished (pre ++ tr)
  | fault tr => fault (pre ++ tr)
  | nofuel => nofuel

/-- `state.close()` on the dispatcher's child slot: a no-op unless a live
generator is held (closing a finished generator fires nothing). -/
def slotClose (M : ChildModel σ C I E L) : Slot σ → List (LifeEvt L)
  | .live s => M.close s
  | _ => []

variable {σ C I E L : Type}

/-- The dispatcher loop of `sm` (`smachine.py` lines 19-38), from the top of
`while True` with current locals `cfg`, `ctx`, `evt`, until it yields,
returns, or propagates a fault.  One recursive call is made per repetition
of the loop caused by `except StopIteration: evt = None; continue`, bounded
by `fuel`.  Faithfully mirrored behaviours:
* `transition_func(ctx, (state_id, evt))` returning `None` breaks the loop,
  and the `finally` block closes the held child;
* on a changed id the old child is closed, the factory runs and the new
  child is started (`state.next()`); on an unchanged id the existing child
  is sent `(ctx, state_id, evt)`;
* sending to the `empty` slot (only possible when the dispatcher was
  created with an explicit `state_id` equal to the transition result) is
  `None.send`, an `AttributeError`: a fault, with nothing to close;
* sending to an `exhausted` child raises `StopIteration` immediately;
* a child fault propagates; the `finally` close of the just-finished child
  fires nothing further. -/
def dispStep (M : ChildModel σ C I E L)
    (tf : C → Option I × Option E → Option I) [DecidableEq I] :
    Nat → DispCfg σ I → C → Option E → DispRes σ C I E L × DispStats C I E
  | 0, _, _, _ => (.nofuel, .empty)
  | fuel+1, cfg, ctx, evt =>
    match tf ctx (cfg.state_id, evt) with
    | none =>
        (.finished (slotClose M cfg.slot), ⟨[(cfg.state_id, evt)], [], [], 0⟩)
    | some nxt =>
      if cfg.state_id = some nxt then
        match cfg.slot with
        | .empty => (.fault [], ⟨[(cfg.state_id, evt)], [], [], 0⟩)
        | .exhausted =>
            let r := dispStep M tf fuel cfg ctx none
            (r.1, r.2.addIter (cfg.state_id, evt) [] [(ctx, nxt, evt)] 1)
        | .live s =>
          match M.send s ctx nxt evt with
          | .yielded c2 vec e2 s2 tr =>
              (.yielded c2 (vec ++ [nxt]) e2 ⟨some nxt, .live s2⟩ tr,
               ⟨[(cfg.state_id, evt)], [], [(ctx, nxt, evt)], 0⟩)
          | .stop tr =>
              let r := dispStep M tf fuel ⟨some nxt, .exhausted⟩ ctx none
              ((r.1).addTr tr,
               r.2.addIter (cfg.state_id, evt) [] [(ctx, nxt, evt)] 1)
          | .fault tr =>
              (.fault tr, ⟨[(cfg.state_id, evt)], [], [(ctx, nxt, evt)], 0⟩)
          | .nofuel => (.nofuel, .empty)
      else
        let clTr := slotClose M cfg.slot
        match M.start ctx nxt evt with
        | .yielded c2 vec e2 s2 tr =>
            (.yielded c2 (vec ++ [nxt]) e2 ⟨some nxt, .live s2⟩ (clTr ++ tr),
             ⟨[(cfg.state_id, evt)], [nxt], [], 0⟩)
        | .stop tr =>
            let r := dispStep M tf fuel ⟨some nxt, .exhausted⟩ ctx none
            ((r.1).addTr (clTr ++ tr),
             r.2.addIter (cfg.state_id, evt) [nxt] [] 1)
        | .fault tr =>
            (.fault (clTr ++ tr), ⟨[(cfg.state_id, evt)], [nxt], [], 0⟩)
        | .nofuel => (.nofuel, .empty)

/-- Resuming the dispatcher suspended at `yield` with a caller-supplied step
value `(ctx, sent_sid, evt)`.  The source line is
`ctx, _, evt = yield (...)`: the middle (state-id/path) component of the
supplied value is bound to `_` and discarded.  The following source line
`if state_id is None: break` tests the dispatcher's *own* local
`state_id` (`cfg.state_id`), not the supplied component; on `None` the loop
breaks and the `finally` block closes the child. -/
def dispResume (M : ChildModel σ C I E L)
    (tf : C → Option I × Option E → Option I) [DecidableEq I] (fuel : Nat)
    (cfg : DispCfg σ I) (ctx : C) (sent_sid : Option (List I))
    (evt : Option E) : DispRes σ C I E L × DispStats C I E :=
  if cfg.state_id.isNone then
    (.finished (slotClose M cfg.slot), .empty)
  else dispStep M tf fuel cfg ctx evt

/-- Starting a freshly created dispatcher generator
`state_machine(s_f, t_f)(ctx, state_id, evt)` with its first `next()`:
the loop runs from the top with `state = None`. -/
def dispStart (M : ChildModel σ C I E L)
    (tf : C → Option I × Option E → Option I) [DecidableEq I] (fuel : Nat)
    (ctx : C) (sid0 : Option I) (evt0 : Option E) :
    DispRes σ C I E L × DispStats C I E :=
  dispStep M tf fuel ⟨sid0, .empty⟩ ctx evt0

/-- Repackage a dispatcher result as a child-resumption result: a
dispatcher conforms to the child state contract (nesting).  `finished`
becomes the completion signal `stop`. -/
def toChild : DispRes σ C I E L × DispStats C I E → ChildRes (DispCfg σ I) C I E L
  | (.yielded c v e cfg tr, _) => .yielded c v e cfg tr
  | (.finished tr, _) => .stop tr
  | (.fault tr, _) => .fault tr
  | (.nofuel, _) => .nofuel

/-- A dispatcher used as the child state of an enclosing dispatcher, the
way the repository's examples nest machines.  The parent's factory creates
the sub-machine generator with initial arguments `init c i e` (e.g.
`lambda c,n,e: s[n](c,None,None)` in `test.py`, or
`state_machine_from_class(PocketCalcInnerSM)(c,n,e)` in the calculator
example) and `start` then performs the first `next()`.  A `send` from the
parent delivers `(ctx, state_id, evt)`; the sub-machine discards the middle
component, performs its (dead) `state_id is None` check, and re-enters its
loop.  `close` runs the sub-machine's `finally`, closing its own child. -/
def dispChild (M : ChildModel σ C I E L)
    (tf : C → Option I × Option E → Option I) [DecidableEq I] (fuel : Nat)
    (init : C → I → Option E → Option I × Option E) :
    ChildModel (DispCfg σ I) C I E L where
  start c i e :=
    toChild (dispStart M tf fuel c (init c i e).1 (init c i e).2)
  send cfg c i e :=
    if cfg.state_id.isNone then .stop (slotClose M cfg.slot)
    else toChild (dispStep M tf fuel cfg c e)
  close cfg := slotClose M cfg.slot

/-! ## The dispatcher as a generator, and the drivers `run_sm` / `iter_sm` -/

/-- The value exchanged with a dispatcher generator: Python `None`, or a
`(ctx, path-or-id, evt)` triple whose middle component may itself be the
absent value. -/
def Triple (C I E : Type) := C × Option (List I) × Option E

instance [DecidableEq C] [DecidableEq I] [DecidableEq E] :
    DecidableEq (Triple C I E) := by
  unfold Triple; infer_instance

/-- Result of `gen.send(v)` on a generator: it yields a value and a new
generator state (`out`), raises `StopIteration` (`halt`), raises another
exception (`err`), or the fueled model gives out (`nofuel`). -/
inductive GenRes (V μ : Type) where
  | out (v : V) (m : μ)
  | halt
  | err
  | nofuel
  deriving DecidableEq, Repr

/-- Life stage of a dispatcher generator object: freshly created with its
initial arguments and not yet started, suspended at its `yield`, or
finished. -/
inductive DStat (σ C I E : Type) where
  | fresh (c0 : C) (s0 : Option I) (e0 : Option E)
  | susp (cfg : DispCfg σ I)
  | dead
  deriving DecidableEq, Repr

/-- `sm.send(val)` on a dispatcher generator object.  Sending a non-`None`
value to a not-yet-started generator is a Python `TypeError` (`err`);
sending `None` to a suspended dispatcher makes the tuple unpacking
`ctx, _, evt = yield (...)` raise a `TypeError` (`err`); sending anything
to a finished generator raises `StopIteration` (`halt`).  Life-cycle traces
are not observable through this value-level interface and are dropped. -/
def dispGen (M : ChildModel σ C I E L)
    (tf : C → Option I × Option E → Option I) [DecidableEq I] (fuel : Nat) :
    DStat σ C I E → Option (Triple C I E) →
    GenRes (Option (Triple C I E)) (DStat σ C I E)
  | .fresh c0 s0 e0, none =>
    match (dispStart M tf fuel c0 s0 e0).1 with
    | .yielded c v e cfg _ => .out (some (c, some v, e)) (.susp cfg)
    | .finished _ => .halt
    | .fault _ => .err
    | .nofuel => .nofuel
  | .fresh _ _ _, some _ => .err
  | .dead, _ => .halt
  | .susp _, none => .err
  | .susp cfg, some (c, sv, e) =>
    match (dispResume M tf fuel cfg c sv e).1 with
    | .yielded c2 v e2 cfg2 _ => .out (some (c2, some v, e2)) (.susp cfg2)
    | .finished _ => .halt
    | .fault _ => .err
    | .nofuel => .nofuel

/-- Result of `run_sm`: the returned value, a propagated non-`StopIteration`
exception, or fuel exhaustion of the model. -/
inductive RunOut (V : Type) where
  | done (v : V)
  | errO
  | fuelO
  deriving DecidableEq, Repr

variable {V μ κ : Type}

/-- `run_sm(sm, callback, val)` (`smachine.py` lines 56-81) over an abstract
generator `g` (a send function on machine states `μ`) and a stateful
callback `cb` (state type `κ`; `none` models the callback raising
`StopIteration`, the halt signal).  Each round sends `val` into the
machine; `StopIteration` from the machine ends the loop returning the
current `val`; otherwise the callback maps the output to the next input,
and its halt signal ends the loop returning the machine's output (the
assignment `val = callback(sm, val)` did not happen). -/
def runSm (g : μ → V → GenRes V μ) (cb : κ → V → Option (V × κ)) :
    Nat → μ → κ → V → RunOut V
  | 0, _, _, _ => .fuelO
  | fuel+1, m, k, val =>
    match g m val with
    | .halt => .done val
    | .err => .errO
    | .nofuel => .fuelO
    | .out v2 m2 =>
      match cb k v2 with
      | none => .done v2
      | some (v3, k2) => runSm g cb fuel m2 k2 v3

/-- The sequence of values taken by the variable `val` inside the
`run_sm` loop after the initial one: each machine output, followed by its
callback transform when the callback does not halt.  `none` when the run
ends in a propagated error or out of fuel. -/
def runVals (g : μ → V → GenRes V μ) (cb : κ → V → Option (V × κ)) :
    Nat → μ → κ → V → Option (List V)
  | 0, _, _, _ => none
  | fuel+1, m, k, val =>
    match g m val with
    | .halt => some []
    | .err => none
    | .nofuel => none
    | .out v2 m2 =>
      match cb k v2 with
      | none => some [v2]
      | some (v3, k2) => (runVals g cb fuel m2 k2 v3).map (fun l => v2 :: v3 :: l)

/-- `run_sm` instrumented with the list of machine outputs (the step-value
trace), the final machine state, and whether the run ended because the
callback raised the halt signal (`true`) or because the machine signalled
termination (`false`). -/
def runSmT (g : μ → V → GenRes V μ) (cb : κ → V → Option (V × κ)) :
    Nat → μ → κ → V → Option (List V × V × μ × Bool)
  | 0, _, _, _ => none
  | fuel+1, m, k, val =>
    match g m val with
    | .halt => some ([], val, m, false)
    | .err => none
    | .nofuel => none
    | .out v2 m2 =>
      match cb k v2 with
      | none => some ([v2], v2, m2, true)
      | some (v3, k2) =>
        (runSmT g cb fuel m2 k2 v3).map (fun r => (v2 :: r.1, r.2))

/-- Why an `iter_sm` iteration sequence ended: the machine raised
`StopIteration`, the event iterator was exhausted, the callback raised the
halt signal, an error propagated, or the model ran out of fuel. -/
inductive IterEnd where
  | mDone
  | evDone
  | cbDone
  | errI
  | fuelI
  deriving DecidableEq, Repr

/-- `iter_sm(sm, evt_iter, callback, val)` (`smachine.py` lines 84-110),
unrolled as a run: `injs` lists the value the loop's consumer sends into
the iterator at each round (`none` when it uses plain iteration), `evs` is
the event iterator (`none` when no `evt_iter` was supplied).  Each round:
`val = sm.send(val)`; the callback may transform it (or halt); the round's
value is yielded (collected in the returned list); then the next `val` is
the injected value if present, else — when an event iterator exists — the
triple `(val[0], val[1], evt_iter.next())`, keeping the previous output's
context and path-vector components and replacing only the event; `val[0]`
on a `None` output is a `TypeError`.  Returns the yielded values, the
remaining events, and the reason the iteration ended. -/
def iterSm (g : μ → Option (Triple C I E) → GenRes (Option (Triple C I E)) μ)
    (cb : κ → Option (Triple C I E) → Option (Option (Triple C I E) × κ)) :
    Nat → μ → κ → Option (Triple C I E) → List (Option (Option (Triple C I E))) →
    Option (List E) →
    List (Option (Triple C I E)) × Option (List E) × IterEnd
  | 0, _, _, _, _, evs => ([], evs, .fuelI)
  | fuel+1, m, k, val, injs, evs =>
    match g m val with
    | .halt => ([], evs, .mDone)
    | .err => ([], evs, .errI)
    | .nofuel => ([], evs, .fuelI)
    | .out v2 m2 =>
      match cb k v2 with
      | none => ([], evs, .cbDone)
      | some (v3, k2) =>
        let pv : Option (Option (Triple C I E)) := injs.headD none
        let injs2 := injs.tail
        match pv with
        | some p =>
          let r := iterSm g cb fuel m2 k2 p injs2 evs
          (v3 :: r.1, r.2)
        | none =>
          match evs with
          | none =>
            let r := iterSm g cb fuel m2 k2 v3 injs2 none
            (v3 :: r.1, r.2)
          | some [] => ([v3], some [], .evDone)
          | some (e :: er) =>
            match v3 with
            | none => ([v3], some (e :: er), .errI)
            | some (c, sv, _) =>
              let r := iterSm g cb fuel m2 k2 (some (c, sv, some e)) injs2 (some er)
              (v3 :: r.1, r.2)

/-- The next input `iter_sm` constructs when the consumer injected nothing
and an event iterator supplied event `e`: the previous output with only its
event component replaced (source line
`val = (val[0], val[1], evt_iter.next())`). -/
def iterNextVal (prev : Triple C I E) (e : E) : Triple C I E :=
  (prev.1, prev.2.1, some e)

/-! ## Driving one dispatcher directly: caller action sequences -/

/-- One action of the code driving a suspended dispatcher: resume it with a
step value `(c, sv, e)` (the middle component is what the caller puts in
the state-id position), or close it. -/
inductive CallerAct (C I E : Type) where
  | sendA (c : C) (sv : Option (List I)) (e : Option E)
  | closeA
  deriving DecidableEq, Repr

/-- How a driven dispatcher run ended: the transition function signalled
termination, a fault propagated, the caller closed it (explicitly or by
abandoning it), or the model ran out of fuel. -/
inductive RunEnd where
  | term
  | errEnd
  | closedBy
  | fuelOut
  deriving DecidableEq, Repr

/-- Drive a dispatcher from the result of its previous resumption through a
list of caller actions, collecting its outputs, the concatenated life-cycle
trace, the reason the run ended, and the per-resumption instrumentation
records.  An exhausted action list while the dispatcher is suspended closes
it (the caller abandons the generator). -/
def dispRunAux (M : ChildModel σ C I E L)
    (tf : C → Option I × Option E → Option I) [DecidableEq I] (fuel : Nat) :
    List (CallerAct C I E) → DispRes σ C I E L × DispStats C I E →
    List (C × List I × Option E) × List (LifeEvt L) × RunEnd ×
      List (DispStats C I E)
  | _, (.finished tr, st) => ([], tr, .term, [st])
  | _, (.fault tr, st) => ([], tr, .errEnd, [st])
  | _, (.nofuel, st) => ([], [], .fuelOut, [st])
  | [], (.yielded c v e cfg tr, st) =>
      ([(c, v, e)], tr ++ slotClose M cfg.slot, .closedBy, [st])
  | act :: acts, (.yielded c v e cfg tr, st) =>
    match act with
    | .closeA => ([(c, v, e)], tr ++ slotClose M cfg.slot, .closedBy, [st])
    | .sendA c2 sv e2 =>
      let r := dispRunAux M tf fuel acts (dispResume M tf fuel cfg c2 sv e2)
      ((c, v, e) :: r.1, tr ++ r.2.1, r.2.2.1, st :: r.2.2.2)

/-- A whole driven run of one dispatcher created as
`state_machine(s_f, t_f)(c0, s0, e0)`: first `next()`, then the caller
actions. -/
def dispRun (M : ChildModel σ C I E L)
    (tf : C → Option I × Option E → Option I) [DecidableEq I] (fuel : Nat)
    (c0 : C) (s0 : Option I) (e0 : Option E)
    (acts : List (CallerAct C I E)) :
    List (C × List I × Option E) × List (LifeEvt L) × RunEnd ×
      List (DispStats C I E) :=
  dispRunAux M tf fuel acts (dispStart M tf fuel c0 s0 e0)

/-! ## Property definitions -/

/-- Every path vector yielded by a child model has length `d` — the model
has a fixed nesting depth `d` (a plain state yielding `[own id]` has depth
1, and each dispatcher level around it adds one). -/
def YieldsLen (M : ChildModel σ C I E L) (d : Nat) : Prop :=
  (∀ c i e c2 vec e2 s2 tr,
      M.start c i e = .yielded c2 vec e2 s2 tr → vec.length = d) ∧
  (∀ s c i e c2 vec e2 s2 tr,
      M.send s c i e = .yielded c2 vec e2 s2 tr → vec.length = d)

/-- `1` when the dispatcher resumption ended with the loop's `break`
(transition function returned the absent value), else `0`. -/
def DispRes.finNat : DispRes σ C I E L → Nat
  | .finished _ => 1
  | _ => 0

/-- Well-bracketed life-cycle traces: `StackOK st tr st2` holds when,
starting from the stack `st` of currently open instances (innermost
first), the trace `tr` can be read as a sequence of pushes (`created`) and
pops (`exited`) ending with open-instance stack `st2`.  `StackOK [] tr []`
states that every instance created in `tr` has its exit action fire
exactly once, later, and that exits happen innermost-first (an instance
can only exit while it is the most recently opened one still open):
children close before their parent. -/
inductive StackOK {L : Type} : List L → List (LifeEvt L) → List L → Prop where
  | nil : StackOK st [] st
  | push : StackOK (l :: st) tr st2 → StackOK st (.created l :: tr) st2
  | pop : StackOK st tr st2 → StackOK (l :: st) (.exited l :: tr) st2

/-- The pending (still-open) instances of the dispatcher's child slot,
given the pending-instance assignment of the child model. -/
def slotPend (pend : σ → List L) : Slot σ → List L
  | .live s => pend s
  | _ => []

/-- A child resumption result is life-cycle-correct with respect to the
stack `before` of instances open in it beforehand: its trace is a
well-bracketed update from `before` to the instances open afterwards
(those of the new internal state after a yield, none after the generator
finishes or faults, since a finished generator's `finally` blocks have all
run). -/
def ResOK (pend : σ → List L) (before : List L) :
    ChildRes σ C I E L → Prop
  | .yielded _ _ _ s2 tr => StackOK before tr (pend s2)
  | .stop tr => StackOK before tr []
  | .fault tr => StackOK before tr []
  | .nofuel => True

/-- A child model is `Balanced` for a pending-instance assignment `pend`
when closing a state fires exactly the exit actions of its open instances,
innermost first, and every resumption is life-cycle-correct. -/
structure Balanced (M : ChildModel σ C I E L) (pend : σ → List L) : Prop where
  close_eq : ∀ s, M.close s = (pend s).map LifeEvt.exited
  start_ok : ∀ c i e, ResOK pend [] (M.start c i e)
  send_ok : ∀ s c i e, ResOK pend (pend s) (M.send s c i e)

/-- Life-cycle-correctness for dispatcher resumption results. -/
def DResOK (pend : σ → List L) (before : List L) :
    DispRes σ C I E L → Prop
  | .yielded _ _ _ cfg tr => StackOK before tr (slotPend pend cfg.slot)
  | .finished tr => StackOK before tr []
  | .fault tr => StackOK before tr []
  | .nofuel => True

/-- `true` on `created` events. -/
def LifeEvt.isCreated : LifeEvt L → Bool
  | .created _ => true
  | _ => false

/-- `true` on `exited` events. -/
def LifeEvt.isExited : LifeEvt L → Bool
  | .exited _ => true
  | _ => false

/-- Wrap a child model so that its instances carry the label `l`: starting
it emits `created l` first, and its exit action (`exited l`) fires when
the generator finishes, faults, or is closed — after the exit actions of
anything it opened internally. -/
def labeled (l : L) (M : ChildModel σ C I E L) : ChildModel σ C I E L where
  start c i e :=
    match M.start c i e with
    | .yielded c2 v e2 s2 tr => .yielded c2 v e2 s2 (.created l :: tr)
    | .stop tr => .stop (.created l :: (tr ++ [.exited l]))
    | .fault tr => .fault (.created l :: (tr ++ [.exited l]))
    | .nofuel => .nofuel
  send s c i e :=
    match M.send s c i e with
    | .yielded c2 v e2 s2 tr => .yielded c2 v e2 s2 tr
    | .stop tr => .stop (tr ++ [.exited l])
    | .fault tr => .fault (tr ++ [.exited l])
    | .nofuel => .nofuel
  close s := M.close s ++ [.exited l]

/-- The context-and-event projection of a caller action: everything except
the state-id component placed in the middle of a sent step value. -/
def actCE : CallerAct C I E → Option (C × Option E)
  | .sendA c _ e => some (c, e)
  | .closeA => none

/-- A callback state machine that glues `cb1` and `cb2` together: it
behaves as `cb1` until `cb1` raises the halt signal, at which point it
passes the value through unchanged once and behaves as `cb2` (started
from `k20`) from then on. -/
def spliceCb (cb1 : κ → V → Option (V × κ)) {κ2 : Type}
    (cb2 : κ2 → V → Option (V × κ2)) (k20 : κ2) :
    κ ⊕ κ2 → V → Option (V × (κ ⊕ κ2))
  | .inl k1, v =>
    match cb1 k1 v with
    | some (v2, k1b) => some (v2, .inl k1b)
    | none => some (v, .inr k20)
  | .inr k2, v => (cb2 k2 v).map (fun p => (p.1, .inr p.2))

/-- The event-feeding driver callback used throughout the repository's
examples (e.g. `StateMachineClassEx1.callback`, `cb` in the `state.py`
doctests): keep the context and path components of the machine's last
output, replace the event with the next one from a list, and raise the
halt signal when the list is exhausted. -/
def cbFeed : List E → Option (Triple C I E) →
    Option (Option (Triple C I E) × List E)
  | [], _ => none
  | e :: rest, some (c, sv, _) => some (some (c, sv, some e), rest)
  | _ :: _, none => none

/-- A callback that passes every value through unchanged: `iter_sm` /
`run_sm` with `callback=None`. -/
def cbId : Unit → V → Option (V × Unit) := fun _ v => some (v, ())

/-! ## Concrete machines from the repository's doctests -/

/-- The `SimpleSM1.state` leaf (`state.py` lines 152-156, `test.py`):
`while True: ctx, state_id, evt = yield (ctx, ['-'], evt)`. -/
def leafSimple : ChildModel Unit Unit String Char Unit where
  start c _ e := .yielded c ["-"] e () []
  send _ c _ e := .yielded c ["-"] e () []
  close _ := []

/-- `SimpleSM1.transition`: `{(None,None): 's1', ('s1','n'): 's2',
('s2','n'): None}.get(t, s)`. -/
def tSimple : Unit → Option String × Option Char → Option String
  | _, (none, none) => some "s1"
  | _, (some "s1", some 'n') => some "s2"
  | _, (some "s2", some 'n') => none
  | _, (s, _) => s

/-- The sub-machine `m1 = m2 = m3 = state_machine_from_class(SimpleSM1)`
as a child of the outer chain machine, created by
`s_f = lambda c,n,e: s[n](c,None,None)`. -/
def innerM : ChildModel (DispCfg Unit String) Unit String Char Unit :=
  dispChild leafSimple tSimple 30 (fun _ _ _ => (none, none))

/-- The chain transition table `{(None,None): 'm1', ('m1',None): 'm2',
('m2',None): 'm3', ('m3',None): None}.get(t, t[0])`. -/
def tChain : Unit → Option String × Option Char → Option String
  | _, (none, none) => some "m1"
  | _, (some "m1", none) => some "m2"
  | _, (some "m2", none) => some "m3"
  | _, (some "m3", none) => none
  | _, (s, _) => s

/-- The outer chain machine `sm = state_machine(s_f, t_f)(None)` as a
generator. -/
def outerGen : DStat (DispCfg Unit String) Unit String Char →
    Option (Triple Unit String Char) →
    GenRes (Option (Triple Unit String Char))
      (DStat (DispCfg Unit String) Unit String Char) :=
  dispGen innerM tChain 30

/-- The `state_ex1` leaf (`state.py` lines 44-47): remembers the state id
it was created with and yields `(ctx, [state_id], evt)` forever. -/
def leafEx1 : ChildModel String Unit String String Unit where
  start c i e := .yielded c [i] e i []
  send s c _ e := .yielded c [s] e s []
  close _ := []

/-- The door transition table (`state.py` lines 199-205):
`{(None,None): 'closed', ('closed','open'): 'opened', ('opened','close'):
'closed', ('closed','lock'): 'locked', ('locked','unlock'):
'closed'}.get(t, t[0])`. -/
def tDoor : Unit → Option String × Option String → Option String
  | _, (none, none) => some "closed"
  | _, (some "closed", some "open") => some "opened"
  | _, (some "opened", some "close") => some "closed"
  | _, (some "closed", some "lock") => some "locked"
  | _, (some "locked", some "unlock") => some "closed"
  | _, (s, _) => s

/-- The door machine as a generator. -/
def doorGen : DStat String Unit String String →
    Option (Triple Unit String String) →
    GenRes (Option (Triple Unit String String)) (DStat String Unit String String) :=
  dispGen leafEx1 tDoor 30

/-- The uninterrupted door run over the events `["lock", "open"]`. -/
def doorFull : Option (List (Option (Triple Unit String String))) :=
  (runSmT doorGen cbFeed 40 (DStat.fresh () none none) ["lock", "open"] none).map
    (fun r => r.1)

/-- The split door run: run over `["lock"]` until the callback halts,
capture the returned value and machine, resume a fresh `run_sm` over
`["open"]`, and concatenate the two traces. -/
def doorSplit : Option (List (Option (Triple Unit String String))) :=
  match runSmT doorGen cbFeed 40 (DStat.fresh () none none) ["lock"] none with
  | some (tr1, r, m1, true) =>
    (runSmT doorGen cbFeed 40 m1 ["open"] r).map (fun q => tr1 ++ q.1)
  | _ => none

/-- A labelled leaf model over booleans for life-cycle instrumentation:
entering state `i` creates an instance labelled `i`; its exit action fires
on close. -/
def labLeaf : ChildModel Bool Unit Bool Bool Bool where
  start _ i e := .yielded () [i] e i [.created i]
  send s c _ e := .yielded c [s] e s []
  close s := [.exited s]

/-- The open instances of `labLeaf`: exactly its own label. -/
def labPend : Bool → List Bool := fun s => [s]

/-- A transition function over `Bool` ids driven by the event: the initial
state is `false`, an event `e` selects state `e`, and the absent event
terminates. -/
def tLab : Unit → Option Bool × Option Bool → Option Bool
  | _, (none, _) => some false
  | _, (some _, some e) => some e
  | _, (some _, none) => none

/-! ## Helper lemmas -/

theorem addTr_eq_yielded {r : DispRes σ C I E L} {pre tr : List (LifeEvt L)}
    {c : C} {v : List I} {e : Option E} {cfg : DispCfg σ I}
    (h : r.addTr pre = .yielded c v e cfg tr) :
    ∃ tr0, r = .yielded c v e cfg tr0 ∧ tr = pre ++ tr0 := by
  cases r with
  | yielded c0 v0 e0 cfg0 tr0 =>
    simp only [DispRes.addTr, DispRes.yielded.injEq] at h
    obtain ⟨h1, h2, h3, h4, h5⟩ := h
    exact ⟨tr0, by simp [h1, h2, h3, h4], h5.symm⟩
  | finished tr0 => simp [DispRes.addTr] at h
  | fault tr0 => simp [DispRes.addTr] at h
  | nofuel => simp [DispRes.addTr] at h

theorem toChild_eq_yielded {r : DispRes σ C I E L × DispStats C I E}
    {c : C} {v : List I} {e : Option E} {cfg : DispCfg σ I}
    {tr : List (LifeEvt L)} (h : toChild r = .yielded c v e cfg tr) :
    r.1 = .yielded c v e cfg tr := by
  obtain ⟨r1, r2⟩ := r
  cases r1 <;> simp_all [toChild]

/-- Path-vector lengths of dispatcher yields: one more than the child's. -/
theorem dispStep_yield_len {M : ChildModel σ C I E L}
    {tf : C → Option I × Option E → Option I} [DecidableEq I] {d : Nat}
    (hM : YieldsLen M d) :
    ∀ (fuel : Nat) (cfg : DispCfg σ I) (ctx : C) (evt : Option E)
      (c2 : C) (vec : List I) (e2 : Option E) (cfg2 : DispCfg σ I)
      (tr : List (LifeEvt L)),
      (dispStep M tf fuel cfg ctx evt).1 = .yielded c2 vec e2 cfg2 tr →
      vec.length = d + 1 := by
  intro fuel
  induction fuel with
  | zero =>
    intro cfg ctx evt c2 vec e2 cfg2 tr h
    simp [dispStep] at h
  | succ f ih =>
    intro cfg ctx evt c2 vec e2 cfg2 tr h
    rw [dispStep] at h
    split at h
    · simp at h
    · split at h
      · -- stay branch
        split at h
        · simp at h
        · exact ih _ _ _ _ _ _ _ _ h
        · split at h
          · rename_i hsend
            simp only [DispRes.yielded.injEq] at h
            obtain ⟨-, hv, -, -, -⟩ := h
            subst hv
            simp [hM.2 _ _ _ _ _ _ _ _ _ hsend]
          · obtain ⟨tr0, hr, -⟩ := addTr_eq_yielded h
            exact ih _ _ _ _ _ _ _ _ hr
          · simp at h
          · simp at h
      · -- transition branch
        split at h
        · rename_i hstart
          simp only [DispRes.yielded.injEq] at h
          obtain ⟨-, hv, -, -, -⟩ := h
          subst hv
          simp [hM.1 _ _ _ _ _ _ _ _ hstart]
        · obtain ⟨tr0, hr, -⟩ := addTr_eq_yielded h
          exact ih _ _ _ _ _ _ _ _ hr
        · simp at h
        · simp at h

/-! ## C1 -/

/-- C1.  When the active child yields a step value `(ctx', path, evt')`,
the dispatcher yields exactly `(ctx', path ++ [current_state_id], evt')`
to its caller — its own current state id appended after the child's path
(`yield (ctx, s_id_vec + [state_id], evt)` in the source) — whether the
child was resumed in place (part 1) or freshly entered (part 2, where the
current id is the just-assigned `next_state_id`).  Consequently the
path-vector length tracks the nesting depth: if every yield of the child
model has a path vector of length `d` (a plain state yielding exactly its
own id has `d = 1`), every dispatcher yield has length `d + 1` (part 3),
and a dispatcher nested as a child state is again a child model of fixed
path length `d + 1` (part 4), so the yielded path-vector length equals the
nesting depth at each step. -/
theorem c1_path_composition (M : ChildModel σ C I E L)
    (tf : C → Option I × Option E → Option I) [DecidableEq I] :
    (∀ (f : Nat) (cfg : DispCfg σ I) (ctx : C) (evt : Option E) (nxt : I)
       (s : σ) (c2 : C) (vec : List I) (e2 : Option E) (s2 : σ)
       (tr : List (LifeEvt L)),
       tf ctx (cfg.state_id, evt) = some nxt →
       cfg.state_id = some nxt →
       cfg.slot = .live s →
       M.send s ctx nxt evt = .yielded c2 vec e2 s2 tr →
       (dispStep M tf (f+1) cfg ctx evt).1 =
         .yielded c2 (vec ++ [nxt]) e2 ⟨some nxt, .live s2⟩ tr) ∧
    (∀ (f : Nat) (cfg : DispCfg σ I) (ctx : C) (evt : Option E) (nxt : I)
       (c2 : C) (vec : List I) (e2 : Option E) (s2 : σ)
       (tr : List (LifeEvt L)),
       tf ctx (cfg.state_id, evt) = some nxt →
       cfg.state_id ≠ some nxt →
       M.start ctx nxt evt = .yielded c2 vec e2 s2 tr →
       (dispStep M tf (f+1) cfg ctx evt).1 =
         .yielded c2 (vec ++ [nxt]) e2 ⟨some nxt, .live s2⟩
           (slotClose M cfg.slot ++ tr)) ∧
    (∀ d : Nat, YieldsLen M d →
       ∀ (fuel : Nat) (cfg : DispCfg σ I) (ctx : C) (evt : Option E)
         (c2 : C) (vec : List I) (e2 : Option E) (cfg2 : DispCfg σ I)
         (tr : List (LifeEvt L)),
         (dispStep M tf fuel cfg ctx evt).1 = .yielded c2 vec e2 cfg2 tr →
         vec.length = d + 1) ∧
    (∀ (d fuel : Nat) (init : C → I → Option E → Option I × Option E),
       YieldsLen M d → YieldsLen (dispChild M tf fuel init) (d + 1)) := by
  refine ⟨?_, ?_, ?_, ?_⟩
  · intro f cfg ctx evt nxt s c2 vec e2 s2 tr htf hsid hslot hsend
    rw [dispStep]
    rw [hsid] at htf
    simp [htf, hsid, hslot, hsend]
  · intro f cfg ctx evt nxt c2 vec e2 s2 tr htf hsid hstart
    rw [dispStep]
    simp [htf, hsid, hstart]
  · intro d hM
    exact dispStep_yield_len hM
  · intro d fuel init hM
    constructor
    · intro c i e c2 vec e2 s2 tr h
      have h2 := toChild_eq_yielded h
      exact dispStep_yield_len hM _ _ _ _ _ _ _ _ _ h2
    · intro s c i e c2 vec e2 s2 tr h
      simp only [dispChild] at h
      split at h
      · simp at h
      · have h2 := toChild_eq_yielded h
        exact dispStep_yield_len hM _ _ _ _ _ _ _ _ _ h2

/-- Witness for C1 at the doctest machines: a stay-yield and an entry-yield
of the `SimpleSM1` dispatcher compose the path as `child path ++ [own
id]`, and the two-level chain machine (depth-1 leaf inside two dispatcher
levels) yields path vectors of length 3. -/
theorem c1_path_composition_witness :
    ((dispStep leafSimple tSimple 3 ⟨some "s1", .live ()⟩ () (some 'x')).1 =
      .yielded () ["-", "s1"] (some 'x') ⟨some "s1", .live ()⟩ []) ∧
    ((dispStep leafSimple tSimple 3 ⟨none, .empty⟩ () none).1 =
      .yielded () ["-", "s1"] none ⟨some "s1", .live ()⟩ []) ∧
    (["-", "s1", "m1"] : List String).length = 2 + 1 := by
  have hleaf : YieldsLen leafSimple 1 := by
    constructor
    · intro c i e c2 vec e2 s2 tr h
      simp only [leafSimple, ChildRes.yielded.injEq] at h
      obtain ⟨-, hv, -, -, -⟩ := h
      simp [← hv]
    · intro s c i e c2 vec e2 s2 tr h
      simp only [leafSimple, ChildRes.yielded.injEq] at h
      obtain ⟨-, hv, -, -, -⟩ := h
      simp [← hv]
  have hinner : YieldsLen innerM 2 :=
    (c1_path_composition leafSimple tSimple).2.2.2 1 30
      (fun _ _ _ => (none, none)) hleaf
  refine ⟨?_, ?_, ?_⟩
  · exact (c1_path_composition leafSimple tSimple).1 2 ⟨some "s1", .live ()⟩
      () (some 'x') "s1" () () ["-"] (some 'x') () [] rfl rfl rfl rfl
  · have h := (c1_path_composition leafSimple tSimple).2.1 2 ⟨none, .empty⟩
      () none "s1" () ["-"] none () [] rfl (by simp) rfl
    simpa using h
  · exact (c1_path_composition innerM tChain).2.2.1 2 hinner 3
      ⟨none, .empty⟩ () none () ["-", "s1", "m1"] none
      ⟨some "m1", .live ⟨some "s1", .live ()⟩⟩ [] (by decide)

theorem addTr_nofuel_iff {r : DispRes σ C I E L} {pre : List (LifeEvt L)} :
    r.addTr pre = .nofuel ↔ r = .nofuel := by
  cases r <;> simp [DispRes.addTr]

theorem addTr_finNat (r : DispRes σ C I E L) (pre : List (LifeEvt L)) :
    (r.addTr pre).finNat = r.finNat := by
  cases r <;> simp [DispRes.addTr, DispRes.finNat]

/-- Transition-function consultations per caller-visible resumption: one
plus the number of completion signals absorbed. -/
theorem dispStep_count {M : ChildModel σ C I E L}
    {tf : C → Option I × Option E → Option I} [DecidableEq I] :
    ∀ (f : Nat) (cfg : DispCfg σ I) (ctx : C) (evt : Option E),
      (dispStep M tf f cfg ctx evt).1 ≠ .nofuel →
      (dispStep M tf f cfg ctx evt).2.tfCalls.length =
        1 + (dispStep M tf f cfg ctx evt).2.stops := by
  intro f
  induction f with
  | zero => intro cfg ctx evt h; simp [dispStep] at h
  | succ f ih =>
    intro cfg ctx evt h
    rw [dispStep] at h ⊢
    rcases htf : tf ctx (cfg.state_id, evt) with _ | nxt <;>
      simp only [htf] at h ⊢
    · simp
    · by_cases hsid : cfg.state_id = some nxt
      · rw [if_pos hsid] at h ⊢
        rcases hslot : cfg.slot with _ | s | _ <;> simp only [hslot] at h ⊢
        · simp
        · rcases hsend : M.send s ctx nxt evt with c2 | tr0 | tr0 | _ <;>
            simp only [hsend] at h ⊢
          · simp
          · rw [Ne, addTr_nofuel_iff] at h
            have := ih ⟨some nxt, .exhausted⟩ ctx none h
            simp only [DispStats.addIter, List.length_cons]
            omega
          · simp
          · simp at h
        · have := ih cfg ctx none h
          simp only [DispStats.addIter, List.length_cons]
          omega
      · rw [if_neg hsid] at h ⊢
        rcases hstart : M.start ctx nxt evt with c2 | tr0 | tr0 | _ <;>
          simp only [hstart] at h ⊢
        · simp
        · rw [Ne, addTr_nofuel_iff] at h
          have := ih ⟨some nxt, .exhausted⟩ ctx none h
          simp only [DispStats.addIter, List.length_cons]
          omega
        · simp
        · simp at h

/-! ## C2 -/

/-- C2.  A completion signal (`StopIteration`) from the child is absorbed:
the dispatcher replaces the incoming event by the absent value and
restarts its loop at the transition-function consultation *without
yielding* — the whole resumption literally equals the continuation
computed by the recursive call with `evt = none` (parts 1-3 cover the
three completion sites: a resumed child completing, a freshly entered
child completing during its first resumption, and a send to an
already-exhausted child).  Part 4: over any completed resumption (one not
cut off by fuel), the number of transition-function consultations is
exactly one more than the number of completion signals absorbed — each
completion signal is turned into exactly one additional consultation
before control returns to the caller, and the loop may iterate several
times in a single caller-visible step. -/
theorem c2_completion_absorbed (M : ChildModel σ C I E L)
    (tf : C → Option I × Option E → Option I) [DecidableEq I] :
    (∀ (f : Nat) (cfg : DispCfg σ I) (ctx : C) (evt : Option E) (nxt : I)
       (s : σ) (tr : List (LifeEvt L)),
       tf ctx (cfg.state_id, evt) = some nxt →
       cfg.state_id = some nxt →
       cfg.slot = .live s →
       M.send s ctx nxt evt = .stop tr →
       dispStep M tf (f+1) cfg ctx evt =
         ((dispStep M tf f ⟨some nxt, .exhausted⟩ ctx none).1.addTr tr,
          DispStats.addIter (cfg.state_id, evt) [] [(ctx, nxt, evt)] 1
            (dispStep M tf f ⟨some nxt, .exhausted⟩ ctx none).2)) ∧
    (∀ (f : Nat) (cfg : DispCfg σ I) (ctx : C) (evt : Option E) (nxt : I)
       (tr : List (LifeEvt L)),
       tf ctx (cfg.state_id, evt) = some nxt →
       cfg.state_id ≠ some nxt →
       M.start ctx nxt evt = .stop tr →
       dispStep M tf (f+1) cfg ctx evt =
         ((dispStep M tf f ⟨some nxt, .exhausted⟩ ctx none).1.addTr
            (slotClose M cfg.slot ++ tr),
          DispStats.addIter (cfg.state_id, evt) [nxt] [] 1
            (dispStep M tf f ⟨some nxt, .exhausted⟩ ctx none).2)) ∧
    (∀ (f : Nat) (cfg : DispCfg σ I) (ctx : C) (evt : Option E) (nxt : I),
       tf ctx (cfg.state_id, evt) = some nxt →
       cfg.state_id = some nxt →
       cfg.slot = .exhausted →
       dispStep M tf (f+1) cfg ctx evt =
         ((dispStep M tf f cfg ctx none).1,
          DispStats.addIter (cfg.state_id, evt) [] [(ctx, nxt, evt)] 1
            (dispStep M tf f cfg ctx none).2)) ∧
    (∀ (f : Nat) (cfg : DispCfg σ I) (ctx : C) (evt : Option E),
       (dispStep M tf f cfg ctx evt).1 ≠ .nofuel →
       (dispStep M tf f cfg ctx evt).2.tfCalls.length =
         1 + (dispStep M tf f cfg ctx evt).2.stops) := by
  refine ⟨?_, ?_, ?_, dispStep_count⟩
  · intro f cfg ctx evt nxt s tr htf hsid hslot hsend
    rw [dispStep]
    rw [hsid] at htf
    simp [htf, hsid, hslot, hsend]
  · intro f cfg ctx evt nxt tr htf hsid hstart
    rw [dispStep]
    simp [htf, hsid, hstart]
  · intro f cfg ctx evt nxt htf hsid hslot
    rw [dispStep]
    rw [hsid] at htf
    simp [htf, hsid, hslot]

/-- Witness for C2 at the chain machine: sending the second `'n'` to the
`m1` sub-machine makes its transition function return the absent value, so
the sub-machine completes; the outer dispatcher absorbs the completion
signal and re-consults its transition function with no event, and its
completed resumption makes 2 = 1 + 1 transition-function consultations. -/
theorem c2_completion_absorbed_witness :
    (dispStep innerM tChain 11 ⟨some "m1", .live ⟨some "s2", .live ()⟩⟩ ()
        (some 'n') =
      ((dispStep innerM tChain 10 ⟨some "m1", .exhausted⟩ () none).1.addTr [],
       DispStats.addIter (some "m1", some 'n') [] [((), "m1", some 'n')] 1
         (dispStep innerM tChain 10 ⟨some "m1", .exhausted⟩ () none).2)) ∧
    (dispStep innerM tChain 11 ⟨some "m1", .live ⟨some "s2", .live ()⟩⟩ ()
        (some 'n')).2.tfCalls.length =
      1 + (dispStep innerM tChain 11 ⟨some "m1", .live ⟨some "s2", .live ()⟩⟩ ()
        (some 'n')).2.stops := by
  constructor
  · exact (c2_completion_absorbed innerM tChain).1 10
      ⟨some "m1", .live ⟨some "s2", .live ()⟩⟩ () (some 'n') "m1"
      ⟨some "s2", .live ()⟩ [] (by decide) rfl rfl (by decide)
  · exact (c2_completion_absorbed innerM tChain).2.2.2 11
      ⟨some "m1", .live ⟨some "s2", .live ()⟩⟩ () (some 'n') (by decide)

/-! ## C3 -/

/-- Per-resumption call accounting: every transition-function consultation
is followed by exactly one of a factory invocation (the returned id
differed from the current one), a resumption of the already-held child
instance (the id was unchanged), or loop exit on the absent id.  The
hypothesis rules out the start configuration in which an explicit initial
`state_id` aliases the transition result while no child exists yet (the
source would crash there on `None.send`). -/
theorem dispStep_accounting {M : ChildModel σ C I E L}
    {tf : C → Option I × Option E → Option I} [DecidableEq I] :
    ∀ (f : Nat) (cfg : DispCfg σ I) (ctx : C) (evt : Option E),
      (cfg.slot = .empty → cfg.state_id = none) →
      (dispStep M tf f cfg ctx evt).2.tfCalls.length =
        (dispStep M tf f cfg ctx evt).2.entries.length +
        (dispStep M tf f cfg ctx evt).2.stays.length +
        (dispStep M tf f cfg ctx evt).1.finNat := by
  intro f
  induction f with
  | zero => intro cfg ctx evt hinv; simp [dispStep, DispStats.empty, DispRes.finNat]
  | succ f ih =>
    intro cfg ctx evt hinv
    rw [dispStep]
    rcases htf : tf ctx (cfg.state_id, evt) with _ | nxt <;> simp only [htf]
    · simp [DispRes.finNat]
    · by_cases hsid : cfg.state_id = some nxt
      · rw [if_pos hsid]
        rcases hslot : cfg.slot with _ | s | _ <;> simp only [hslot]
        · exact absurd (hinv hslot) (by simp [hsid])
        · rcases hsend : M.send s ctx nxt evt with c2 | tr0 | tr0 | _ <;>
            simp only [hsend]
          · simp [DispRes.finNat]
          · have := ih ⟨some nxt, .exhausted⟩ ctx none (by simp)
            simp only [DispStats.addIter, List.length_cons, List.length_append,
              List.length_nil, List.nil_append, List.length_singleton,
              addTr_finNat]
            omega
          · simp [DispRes.finNat]
          · simp [DispStats.empty, DispRes.finNat]
        · have := ih cfg ctx none (by simp [hslot])
          simp only [DispStats.addIter, List.length_cons, List.length_append,
            List.length_nil, List.nil_append, List.length_singleton]
          omega
      · rw [if_neg hsid]
        rcases hstart : M.start ctx nxt evt with c2 | tr0 | tr0 | _ <;>
          simp only [hstart]
        · simp [DispRes.finNat]
        · have := ih ⟨some nxt, .exhausted⟩ ctx none (by simp)
          simp only [DispStats.addIter, List.length_cons, List.length_append,
            List.length_nil, List.nil_append, List.length_singleton,
            addTr_finNat]
          omega
        · simp [DispRes.finNat]
        · simp [DispStats.empty, DispRes.finNat]

/-- C3.  Staying in place never recreates the child: when the transition
function returns the current state id and the child yields, the resumption
resumes the *existing* child instance with the incoming
`(ctx, state_id, evt)` and ends with an empty factory-invocation list and
exactly that one send (part 1) — the held generator state `s` flows into
the child's `send`, so no new entry action can be observed.  Part 2: over
any whole resumption (and hence, summing, over any whole run), the factory
is invoked exactly once per transition-function consultation whose result
entered a different state — consultations split exactly into entries
(factory invocations), stays (sends to the held instance), and the final
absent-id exit — i.e. once per entry into a distinct state id, not once
per step. -/
theorem c3_stay_no_factory (M : ChildModel σ C I E L)
    (tf : C → Option I × Option E → Option I) [DecidableEq I] :
    (∀ (f : Nat) (cfg : DispCfg σ I) (ctx : C) (evt : Option E) (nxt : I)
       (s : σ) (c2 : C) (vec : List I) (e2 : Option E) (s2 : σ)
       (tr : List (LifeEvt L)),
       tf ctx (cfg.state_id, evt) = some nxt →
       cfg.state_id = some nxt →
       cfg.slot = .live s →
       M.send s ctx nxt evt = .yielded c2 vec e2 s2 tr →
       dispStep M tf (f+1) cfg ctx evt =
         (.yielded c2 (vec ++ [nxt]) e2 ⟨some nxt, .live s2⟩ tr,
          ⟨[(cfg.state_id, evt)], [], [(ctx, nxt, evt)], 0⟩)) ∧
    (∀ (f : Nat) (cfg : DispCfg σ I) (ctx : C) (evt : Option E),
       (cfg.slot = .empty → cfg.state_id = none) →
       (dispStep M tf f cfg ctx evt).2.tfCalls.length =
         (dispStep M tf f cfg ctx evt).2.entries.length +
         (dispStep M tf f cfg ctx evt).2.stays.length +
         (dispStep M tf f cfg ctx evt).1.finNat) := by
  refine ⟨?_, dispStep_accounting⟩
  intro f cfg ctx evt nxt s c2 vec e2 s2 tr htf hsid hslot hsend
  rw [dispStep]
  rw [hsid] at htf
  simp [htf, hsid, hslot, hsend]

/-- Witness for C3 at the door machine: the `'test'`-like self-loop
(`('locked','open')` falls through to `t[0]`) resumes the existing leaf
instance, invokes no factory, and its resumption accounting is
`1 = 0 + 1 + 0`. -/
theorem c3_stay_no_factory_witness :
    (dispStep leafEx1 tDoor 7 ⟨some "locked", .live "locked"⟩ ()
        (some "open") =
      (.yielded () ["locked", "locked"] (some "open")
         ⟨some "locked", .live "locked"⟩ [],
       ⟨[(some "locked", some "open")], [], [((), "locked", some "open")], 0⟩)) ∧
    (dispStep leafEx1 tDoor 7 ⟨some "locked", .live "locked"⟩ ()
        (some "open")).2.tfCalls.length =
      (dispStep leafEx1 tDoor 7 ⟨some "locked", .live "locked"⟩ ()
        (some "open")).2.entries.length +
      (dispStep leafEx1 tDoor 7 ⟨some "locked", .live "locked"⟩ ()
        (some "open")).2.stays.length +
      (dispStep leafEx1 tDoor 7 ⟨some "locked", .live "locked"⟩ ()
        (some "open")).1.finNat := by
  constructor
  · exact (c3_stay_no_factory leafEx1 tDoor).1 6
      ⟨some "locked", .live "locked"⟩ () (some "open") "locked" "locked"
      () ["locked"] (some "open") "locked" [] (by decide) rfl rfl (by decide)
  · exact (c3_stay_no_factory leafEx1 tDoor).2 7
      ⟨some "locked", .live "locked"⟩ () (some "open") (by simp)

/-! ## C4 -/

/-- Counterexample to C4.  The door dispatcher is suspended in state
`closed` holding a live child.  The caller resumes it with the step value
`((), None, "open")` — StateId component absent.  C4 claims the dispatcher
then closes its child, moves to closed and produces no further output; in
fact the source discards the middle component (`ctx, _, evt = yield`),
consults the transition function as usual, transitions to `opened` and
yields another step value. -/
theorem c4_counterexample :
    (dispResume leafEx1 tDoor 30 ⟨some "closed", .live "closed"⟩ () none
        (some "open")).1 =
      .yielded () ["opened", "opened"] (some "open")
        ⟨some "opened", .live "opened"⟩ [] ∧
    (dispResume leafEx1 tDoor 30 ⟨some "closed", .live "closed"⟩ () none
        (some "open")).1.finNat = 0 := by
  decide

/-- Helper for the C4 amendment: every configuration at which the
dispatcher suspends has a non-absent own `state_id` (each yield site sets
`state_id = next_state_id` with `next_state_id ≠ None`), so the post-yield
`if state_id is None: break` test never fires. -/
theorem dispStep_yield_sid_isSome {M : ChildModel σ C I E L}
    {tf : C → Option I × Option E → Option I} [DecidableEq I] :
    ∀ (fuel : Nat) (cfg : DispCfg σ I) (ctx : C) (evt : Option E)
      (c2 : C) (vec : List I) (e2 : Option E) (cfg2 : DispCfg σ I)
      (tr : List (LifeEvt L)),
      (dispStep M tf fuel cfg ctx evt).1 = .yielded c2 vec e2 cfg2 tr →
      cfg2.state_id.isSome := by
  intro fuel
  induction fuel with
  | zero =>
    intro cfg ctx evt c2 vec e2 cfg2 tr h
    simp [dispStep] at h
  | succ f ih =>
    intro cfg ctx evt c2 vec e2 cfg2 tr h
    rw [dispStep] at h
    split at h
    · simp at h
    · split at h
      · split at h
        · simp at h
        · exact ih _ _ _ _ _ _ _ _ h
        · split at h
          · simp only [DispRes.yielded.injEq] at h
            obtain ⟨-, -, -, hcfg, -⟩ := h
            simp [← hcfg]
          · obtain ⟨tr0, hr, -⟩ := addTr_eq_yielded h
            exact ih _ _ _ _ _ _ _ _ hr
          · simp at h
          · simp at h
      · split at h
        · simp only [DispRes.yielded.injEq] at h
          obtain ⟨-, -, -, hcfg, -⟩ := h
          simp [← hcfg]
        · obtain ⟨tr0, hr, -⟩ := addTr_eq_yielded h
          exact ih _ _ _ _ _ _ _ _ hr
        · simp at h
        · simp at h

/-- C4 amended.  Resuming a suspended dispatcher with a step value whose
StateId component is absent does *not* close it: (1) the StateId component
of the resumption value is discarded outright — resumption results are
identical for any two supplied components; (2) every reachable suspension
has a non-absent own `state_id`, so (3) at such configurations resumption
is exactly loop re-entry with the supplied context and event — the
`state_id is None` break (and with it any caller-triggered close) is
unreachable, and the dispatcher closes only when its transition function
returns the absent value or when it is closed from outside. -/
theorem c4_amended_sid_discarded (M : ChildModel σ C I E L)
    (tf : C → Option I × Option E → Option I) [DecidableEq I] :
    (∀ (f : Nat) (cfg : DispCfg σ I) (ctx : C) (e : Option E)
       (sv1 sv2 : Option (List I)),
       dispResume M tf f cfg ctx sv1 e = dispResume M tf f cfg ctx sv2 e) ∧
    (∀ (fuel : Nat) (cfg : DispCfg σ I) (ctx : C) (evt : Option E)
       (c2 : C) (vec : List I) (e2 : Option E) (cfg2 : DispCfg σ I)
       (tr : List (LifeEvt L)),
       (dispStep M tf fuel cfg ctx evt).1 = .yielded c2 vec e2 cfg2 tr →
       cfg2.state_id.isSome) ∧
    (∀ (f : Nat) (cfg : DispCfg σ I) (ctx : C) (sv : Option (List I))
       (e : Option E),
       cfg.state_id.isSome →
       dispResume M tf f cfg ctx sv e = dispStep M tf f cfg ctx e) := by
  refine ⟨fun _ _ _ _ _ _ => rfl, dispStep_yield_sid_isSome, ?_⟩
  intro f cfg ctx sv e h
  rcases hs : cfg.state_id with _ | i
  · rw [hs] at h; simp at h
  · simp [dispResume, hs]

/-- Witness for the C4 amendment at the door machine. -/
theorem c4_amended_sid_discarded_witness :
    (dispResume leafEx1 tDoor 9 ⟨some "closed", .live "closed"⟩ ()
        (some ["anything"]) (some "lock") =
      dispResume leafEx1 tDoor 9 ⟨some "closed", .live "closed"⟩ () none
        (some "lock")) ∧
    ((⟨some "opened", .live "opened"⟩ : DispCfg String String).state_id.isSome) ∧
    (dispResume leafEx1 tDoor 9 ⟨some "closed", .live "closed"⟩ () none
        (some "lock") =
      dispStep leafEx1 tDoor 9 ⟨some "closed", .live "closed"⟩ ()
        (some "lock")) := by
  refine ⟨?_, ?_, ?_⟩
  · exact (c4_amended_sid_discarded leafEx1 tDoor).1 9
      ⟨some "closed", .live "closed"⟩ () (some "lock") (some ["anything"]) none
  · exact (c4_amended_sid_discarded leafEx1 tDoor).2.1 30
      ⟨some "closed", .live "closed"⟩ () (some "open") () ["opened", "opened"]
      (some "open") ⟨some "opened", .live "opened"⟩ [] (by decide)
  · exact (c4_amended_sid_discarded leafEx1 tDoor).2.2 9
      ⟨some "closed", .live "closed"⟩ () none (some "lock") (by decide)

/-! ## C10 -/

theorem dispRunAux_sid_independent {M : ChildModel σ C I E L}
    {tf : C → Option I × Option E → Option I} [DecidableEq I] (f : Nat) :
    ∀ (acts1 acts2 : List (CallerAct C I E)),
      acts1.map actCE = acts2.map actCE →
      ∀ (r : DispRes σ C I E L × DispStats C I E),
        dispRunAux M tf f acts1 r = dispRunAux M tf f acts2 r := by
  intro acts1
  induction acts1 with
  | nil =>
    intro acts2 hmap r
    rcases acts2 with _ | ⟨a2, t2⟩
    · rfl
    · simp at hmap
  | cons a1 t1 ih =>
    intro acts2 hmap r
    rcases acts2 with _ | ⟨a2, t2⟩
    · simp at hmap
    · simp only [List.map_cons, List.cons.injEq] at hmap
      obtain ⟨hhead, htail⟩ := hmap
      obtain ⟨res, st⟩ := r
      cases res with
      | finished tr => rfl
      | fault tr => rfl
      | nofuel => rfl
      | yielded c v e cfg tr =>
        cases a1 with
        | closeA =>
          cases a2 with
          | closeA => rfl
          | sendA c2 sv2 e2 => simp [actCE] at hhead
        | sendA c2 sv2 e2 =>
          cases a2 with
          | closeA => simp [actCE] at hhead
          | sendA c3 sv3 e3 =>
            simp only [actCE, Option.some.injEq, Prod.mk.injEq] at hhead
            obtain ⟨hc, he⟩ := hhead
            subst hc; subst he
            simp only [dispRunAux]
            rw [ih t2 htail]
            rfl

/-- C10.  The dispatcher's behaviour is independent of the StateId
component of every step value supplied at a resumption: two caller action
sequences that agree on contexts, events and close points — differing
arbitrarily in the component placed in the state-id position — produce
runs with identical outputs, identical life-cycle traces, identical end
reasons, and identical per-resumption instrumentation (the same
transition-function, factory, and child-resumption calls). -/
theorem c10_sid_independent (M : ChildModel σ C I E L)
    (tf : C → Option I × Option E → Option I) [DecidableEq I] :
    ∀ (acts1 acts2 : List (CallerAct C I E)),
      acts1.map actCE = acts2.map actCE →
      ∀ (f : Nat) (c0 : C) (s0 : Option I) (e0 : Option E),
        dispRun M tf f c0 s0 e0 acts1 = dispRun M tf f c0 s0 e0 acts2 := by
  intro acts1 acts2 hmap f c0 s0 e0
  exact dispRunAux_sid_independent f acts1 acts2 hmap _

/-- Witness for C10 at the door machine: a run whose resumption values
carry the genuine path vectors and a run whose resumption values carry
absent and garbage state ids are indistinguishable. -/
theorem c10_sid_independent_witness :
    dispRun leafEx1 tDoor 9 () none none
      [.sendA () (some ["closed", "closed"]) (some "lock"),
       .sendA () (some ["locked", "locked"]) (some "unlock")] =
    dispRun leafEx1 tDoor 9 () none none
      [.sendA () none (some "lock"),
       .sendA () (some ["garbage"]) (some "unlock")] := by
  exact c10_sid_independent leafEx1 tDoor _ _ (by decide) 9 () none none

/-! ## C8 -/

/-- C8.  `run_sm` pumps the machine, passing each output through the
callback to compute the next input, and returns normally — the same
`done` outcome, never the error outcome — whether the machine signalled
termination or the callback raised the halt signal (both ends of the loop
are the caught `StopIteration`): `run_sm` returns `done r` exactly when
the loop's value sequence is well defined, and then `r` is the last
observed value — the last element of the sequence of values the loop
variable `val` takes (machine outputs interleaved with their callback
transforms), or the initial value when the machine halts immediately. -/
theorem c8_runSm_last (g : μ → V → GenRes V μ)
    (cb : κ → V → Option (V × κ)) :
    ∀ (f : Nat) (m : μ) (k : κ) (val r : V),
      runSm g cb f m k val = .done r ↔
        ∃ l, runVals g cb f m k val = some l ∧ r = l.getLastD val := by
  intro f
  induction f with
  | zero =>
    intro m k val r
    simp [runSm, runVals]
  | succ f ih =>
    intro m k val r
    rw [runSm, runVals]
    rcases hg : g m val with ⟨v2, m2⟩ | _ | _ | _ <;> simp only [hg]
    · rcases hcb : cb k v2 with _ | ⟨v3, k2⟩ <;> simp only [hcb]
      · constructor
        · rintro h
          simp only [RunOut.done.injEq] at h
          exact ⟨[v2], rfl,
            by rw [List.getLastD_cons, List.getLastD_nil]; exact h.symm⟩
        · rintro ⟨l, hl, hr⟩
          simp only [Option.some.injEq] at hl
          subst hl
          rw [List.getLastD_cons, List.getLastD_nil] at hr
          rw [hr]
      · rw [ih]
        constructor
        · rintro ⟨l, hl, hr⟩
          refine ⟨v2 :: v3 :: l, by simp [hl], ?_⟩
          rw [List.getLastD_cons, List.getLastD_cons]
          exact hr
        · rintro ⟨l, hl, hr⟩
          rw [Option.map_eq_some'] at hl
          obtain ⟨l0, hl0, heq⟩ := hl
          subst heq
          refine ⟨l0, hl0, ?_⟩
          rw [List.getLastD_cons, List.getLastD_cons] at hr
          exact hr
    · constructor
      · rintro h
        simp only [RunOut.done.injEq] at h
        exact ⟨[], rfl, by rw [List.getLastD_nil]; exact h.symm⟩
      · rintro ⟨l, hl, hr⟩
        simp only [Option.some.injEq] at hl
        subst hl
        rw [List.getLastD_nil] at hr
        rw [hr]
    · simp
    · simp

/-! ## C9 -/

/-- C9.  In every `iter_sm` round that yields a value `v3`, the next input
is chosen as follows: a value explicitly injected by the loop's consumer
(`pval = yield val` returning non-`None`) takes precedence (part 1);
otherwise, when an event iterator is supplied and non-exhausted, the next
input is the previous output with *only its event component replaced* by
the next event (part 2) — and that constructed input's second component is
the previous output's second component, i.e. the full PathVector the
machine yielded, not a bare StateId (part 3, the shape of
`val = (val[0], val[1], evt_iter.next())`). -/
theorem c9_iter_next_input
    (g : μ → Option (Triple C I E) → GenRes (Option (Triple C I E)) μ)
    (cb : κ → Option (Triple C I E) → Option (Option (Triple C I E) × κ)) :
    (∀ (f : Nat) (m : μ) (k : κ) (val : Option (Triple C I E))
       (inj : Option (Option (Triple C I E)))
       (injs : List (Option (Option (Triple C I E))))
       (evs : Option (List E)) (v2 : Option (Triple C I E)) (m2 : μ)
       (v3 : Option (Triple C I E)) (k2 : κ) (p : Option (Triple C I E)),
       g m val = .out v2 m2 → cb k v2 = some (v3, k2) → inj = some p →
       iterSm g cb (f+1) m k val (inj :: injs) evs =
         (v3 :: (iterSm g cb f m2 k2 p injs evs).1,
          (iterSm g cb f m2 k2 p injs evs).2)) ∧
    (∀ (f : Nat) (m : μ) (k : κ) (val : Option (Triple C I E))
       (injs : List (Option (Option (Triple C I E))))
       (v2 : Option (Triple C I E)) (m2 : μ) (k2 : κ)
       (c : C) (sv : Option (List I)) (e0 : Option E) (e : E) (er : List E),
       g m val = .out v2 m2 → cb k v2 = some (some (c, sv, e0), k2) →
       iterSm g cb (f+1) m k val (none :: injs) (some (e :: er)) =
         (some (c, sv, e0) ::
            (iterSm g cb f m2 k2 (some (iterNextVal (c, sv, e0) e)) injs
              (some er)).1,
          (iterSm g cb f m2 k2 (some (iterNextVal (c, sv, e0) e)) injs
              (some er)).2)) ∧
    (∀ (t : Triple C I E) (e : E),
       (iterNextVal t e).1 = t.1 ∧ (iterNextVal t e).2.1 = t.2.1 ∧
         (iterNextVal t e).2.2 = some e) := by
  refine ⟨?_, ?_, fun t e => ⟨rfl, rfl, rfl⟩⟩
  · intro f m k val inj injs evs v2 m2 v3 k2 p hg hcb hinj
    rw [iterSm]
    simp [hg, hcb, hinj]
  · intro f m k val injs v2 m2 k2 c sv e0 e er hg hcb
    rw [iterSm]
    simp [hg, hcb, iterNextVal]

/-- Witness for C9 on the chain machine's first round: an injected value
takes precedence, and with no injection the next input keeps the yielded
PathVector `["-", "s1", "m1"]` and replaces only the event by `'n'`. -/
theorem c9_iter_next_input_witness :
    (iterSm outerGen cbId 7 (DStat.fresh () none none) () none
        [some (some ((), none, some 'n'))] none =
      (some ((), some ["-", "s1", "m1"], none) ::
         (iterSm outerGen cbId 6
           (DStat.susp ⟨some "m1", .live ⟨some "s1", .live ()⟩⟩) ()
           (some ((), none, some 'n')) [] none).1,
       (iterSm outerGen cbId 6
           (DStat.susp ⟨some "m1", .live ⟨some "s1", .live ()⟩⟩) ()
           (some ((), none, some 'n')) [] none).2)) ∧
    (iterSm outerGen cbId 7 (DStat.fresh () none none) () none [none]
        (some ['n']) =
      (some ((), some ["-", "s1", "m1"], none) ::
         (iterSm outerGen cbId 6
           (DStat.susp ⟨some "m1", .live ⟨some "s1", .live ()⟩⟩) ()
           (some (iterNextVal ((), some ["-", "s1", "m1"], none) 'n')) []
           (some [])).1,
       (iterSm outerGen cbId 6
           (DStat.susp ⟨some "m1", .live ⟨some "s1", .live ()⟩⟩) ()
           (some (iterNextVal ((), some ["-", "s1", "m1"], none) 'n')) []
           (some [])).2)) ∧
    (iterNextVal ((), some ["-", "s1", "m1"], none) 'n').2.1 =
      some ["-", "s1", "m1"] := by
  refine ⟨?_, ?_, ?_⟩
  · exact (c9_iter_next_input outerGen cbId).1 6 (DStat.fresh () none none)
      () none (some (some ((), none, some 'n'))) [] none
      (some ((), some ["-", "s1", "m1"], none))
      (DStat.susp ⟨some "m1", .live ⟨some "s1", .live ()⟩⟩)
      (some ((), some ["-", "s1", "m1"], none)) ()
      (some ((), none, some 'n')) (by decide) rfl rfl
  · exact (c9_iter_next_input outerGen cbId).2.1 6 (DStat.fresh () none none)
      () none [] (some ((), some ["-", "s1", "m1"], none))
      (DStat.susp ⟨some "m1", .live ⟨some "s1", .live ()⟩⟩) ()
      () (some ["-", "s1", "m1"]) none 'n' [] (by decide) rfl
  · exact ((c9_iter_next_input outerGen cbId).2.2
      ((), some ["-", "s1", "m1"], none) 'n').2.1

/-! ## C7 -/

/-- C7.  The sequential chain of the doctest (`state.py` lines 152-196,
`test.py`): sub-machines `m1, m2, m3`, each transitioning
`s1 -> s2 -> done` on `'n'`, chained by `{(None,None): 'm1', ('m1',None):
'm2', ('m2',None): 'm3', ('m3',None): None}`.  Driving the outer machine
through `iter_sm` with twenty repetitions of `'n'` yields exactly the six
step values of the doctest — visiting `m1`, then `m2`, then `m3`, in that
order (the last path element) — then terminates (`mDone`: the outer
machine raises `StopIteration`), with fourteen of the twenty events left
unconsumed, i.e. after exactly 6 consumed events, two per sub-machine. -/
theorem c7_chain_trace :
    iterSm outerGen cbId 40 (DStat.fresh () none none) () none []
        (some (List.replicate 20 'n')) =
      ([some ((), some ["-", "s1", "m1"], none),
        some ((), some ["-", "s2", "m1"], some 'n'),
        some ((), some ["-", "s1", "m2"], none),
        some ((), some ["-", "s2", "m2"], some 'n'),
        some ((), some ["-", "s1", "m3"], none),
        some ((), some ["-", "s2", "m3"], some 'n')],
       some (List.replicate 14 'n'), .mDone) := by
  decide

/-! ## C6 -/

theorem runSmT_mono {g : μ → V → GenRes V μ} {cb : κ → V → Option (V × κ)} :
    ∀ (f : Nat) (m : μ) (k : κ) (v : V) (r : List V × V × μ × Bool),
      runSmT g cb f m k v = some r → runSmT g cb (f+1) m k v = some r := by
  intro f
  induction f with
  | zero => intro m k v r h; simp [runSmT] at h
  | succ f ih =>
    intro m k v r h
    rw [runSmT] at h
    rw [runSmT]
    rcases hg : g m v with ⟨v2, m2⟩ | _ | _ | _ <;> simp only [hg] at h ⊢
    · rcases hcb : cb k v2 with _ | ⟨v3, k2⟩ <;> simp only [hcb] at h ⊢
      · exact h
      · rw [Option.map_eq_some'] at h
        obtain ⟨r0, hr0, heq⟩ := h
        rw [ih _ _ _ _ hr0]
        simp [heq]
    · exact h
    · exact h
    · exact h

theorem runSmT_mono_le {g : μ → V → GenRes V μ} {cb : κ → V → Option (V × κ)}
    {f f2 : Nat} {m : μ} {k : κ} {v : V} {r : List V × V × μ × Bool}
    (hle : f ≤ f2) (h : runSmT g cb f m k v = some r) :
    runSmT g cb f2 m k v = some r := by
  obtain ⟨d, rfl⟩ := Nat.exists_eq_add_of_le hle
  clear hle
  induction d with
  | zero => exact h
  | succ d ih => exact runSmT_mono _ _ _ _ _ ih

theorem spliceCb_inr {g : μ → V → GenRes V μ} {cb1 : κ → V → Option (V × κ)}
    {κ2 : Type} {cb2 : κ2 → V → Option (V × κ2)} {k20 : κ2} :
    ∀ (f : Nat) (m : μ) (k2 : κ2) (v : V),
      runSmT g (spliceCb cb1 cb2 k20) f m (.inr k2) v =
        runSmT g cb2 f m k2 v := by
  intro f
  induction f with
  | zero => intro m k2 v; rfl
  | succ f ih =>
    intro m k2 v
    rw [runSmT, runSmT]
    rcases hg : g m v with ⟨v2, m2⟩ | _ | _ | _ <;> simp only [hg]
    · rcases hcb : cb2 k2 v2 with _ | ⟨v3, k2b⟩ <;>
        simp only [spliceCb, hcb, Option.map_none', Option.map_some'] <;>
        first
        | rfl
        | rw [ih]

/-- Counterexample to C6.  The door machine over `state_ex1` from the
`state.py` doctests, the event-feeding callback, full event sequence
`["lock", "open"]`, split after `["lock"]`.  `doorSplit` runs `run_sm` to
the callback's halt, captures the returned step value and machine, feeds
them into a fresh `run_sm` over `["open"]`, and concatenates the traces;
`doorFull` is the uninterrupted run.  The traces are *not* identical: the
resumed run re-sends the captured value with its stale event `"lock"`,
producing an extra step `(["locked", "locked"], "lock")` that the
uninterrupted run does not contain. -/
theorem c6_counterexample :
    doorFull =
      some [some ((), some ["closed", "closed"], none),
            some ((), some ["locked", "locked"], some "lock"),
            some ((), some ["locked", "locked"], some "open")] ∧
    doorSplit =
      some [some ((), some ["closed", "closed"], none),
            some ((), some ["locked", "locked"], some "lock"),
            some ((), some ["locked", "locked"], some "lock"),
            some ((), some ["locked", "locked"], some "open")] ∧
    doorSplit ≠ doorFull := by
  refine ⟨by decide, by decide, by decide⟩

/-- C6 amended.  Capturing `run_sm`'s returned step value at a
callback-halt and passing it into a fresh `run_sm` does resume the machine
exactly where it left off, but the captured value itself is re-delivered
as the first input of the resumed run (the callback is not consulted for
it).  Hence the combined trace equals a single uninterrupted run whose
callback is `spliceCb cb1 cb2 k20`: behave as the first callback until it
halts, pass the captured value through *unchanged* once, then behave as
the second callback — rather than a run over the plainly concatenated
event sequence. -/
theorem c6_amended_resume_splice (g : μ → V → GenRes V μ)
    (cb1 : κ → V → Option (V × κ)) {κ2 : Type}
    (cb2 : κ2 → V → Option (V × κ2)) (k20 : κ2) :
    ∀ (a : Nat) (b : Nat) (m : μ) (k1 : κ) (v : V) (tr1 : List V) (r : V)
      (m1 : μ) (tr2 : List V) (out2 : V) (m2 : μ) (fl : Bool),
      runSmT g cb1 a m k1 v = some (tr1, r, m1, true) →
      runSmT g cb2 b m1 k20 r = some (tr2, out2, m2, fl) →
      runSmT g (spliceCb cb1 cb2 k20) (a+b) m (.inl k1) v =
        some (tr1 ++ tr2, out2, m2, fl) := by
  intro a
  induction a with
  | zero => intro b m k1 v tr1 r m1 tr2 out2 m2 fl h1 h2; simp [runSmT] at h1
  | succ a ih =>
    intro b m k1 v tr1 r m1 tr2 out2 m2 fl h1 h2
    rw [Nat.succ_add, runSmT]
    rw [runSmT] at h1
    rcases hg : g m v with ⟨v2, m2x⟩ | _ | _ | _ <;> simp only [hg] at h1 ⊢
    · rcases hcb : cb1 k1 v2 with _ | ⟨v3, k1b⟩ <;> simp only [hcb] at h1
      · simp only [Option.some.injEq, Prod.mk.injEq] at h1
        obtain ⟨htr1, hr, hm1, -⟩ := h1
        simp only [spliceCb, hcb]
        rw [spliceCb_inr]
        rw [← hm1, ← hr] at h2
        rw [runSmT_mono_le (Nat.le_add_left b a) h2]
        simp [← htr1]
      · rw [Option.map_eq_some'] at h1
        obtain ⟨⟨tr1x, rx, m1x, flx⟩, hrec, heq⟩ := h1
        simp only [Prod.mk.injEq] at heq
        obtain ⟨htr1, hrx, hm1x, hflx⟩ := heq
        simp only [spliceCb, hcb]
        have hrec2 : runSmT g cb1 a m2x k1b v3 = some (tr1x, r, m1, true) := by
          rw [hrec, hrx, hm1x, hflx]
        rw [ih b m2x k1b v3 tr1x r m1 tr2 out2 m2 fl hrec2 h2]
        simp [← htr1]
    · simp at h1
    · exact absurd h1 (by simp)
    · exact absurd h1 (by simp)

/-- Witness for the C6 amendment at the door machine: the two split runs
compose, through the spliced callback, into the single run whose trace is
their concatenation. -/
theorem c6_amended_resume_splice_witness :
    runSmT doorGen (spliceCb cbFeed cbFeed ["open"]) 80
        (DStat.fresh () none none) (.inl ["lock"]) none =
      some ([some ((), some ["closed", "closed"], none),
             some ((), some ["locked", "locked"], some "lock"),
             some ((), some ["locked", "locked"], some "lock"),
             some ((), some ["locked", "locked"], some "open")],
            some ((), some ["locked", "locked"], some "open"),
            DStat.susp ⟨some "locked", .live "locked"⟩, true) := by
  exact c6_amended_resume_splice doorGen cbFeed cbFeed ["open"] 40 40
    (DStat.fresh () none none) ["lock"] none
    [some ((), some ["closed", "closed"], none),
     some ((), some ["locked", "locked"], some "lock")]
    (some ((), some ["locked", "locked"], some "lock"))
    (DStat.susp ⟨some "locked", .live "locked"⟩)
    [some ((), some ["locked", "locked"], some "lock"),
     some ((), some ["locked", "locked"], some "open")]
    (some ((), some ["locked", "locked"], some "open"))
    (DStat.susp ⟨some "locked", .live "locked"⟩) true
    (by rfl) (by rfl)

/-! ## C5 -/

theorem StackOK_append {a b c : List L} {t1 t2 : List (LifeEvt L)}
    (h1 : StackOK a t1 b) : StackOK b t2 c → StackOK a (t1 ++ t2) c := by
  induction h1 with
  | nil => intro h2; exact h2
  | push h ih => intro h2; exact .push (ih h2)
  | pop h ih => intro h2; exact .pop (ih h2)

theorem StackOK_exitAll : ∀ st : List L, StackOK st (st.map LifeEvt.exited) [] := by
  intro st
  induction st with
  | nil => exact .nil
  | cons l st ih => exact .pop ih

theorem isCreated_created (l : L) : (LifeEvt.created l).isCreated = true := rfl

theorem isCreated_exited (l : L) : (LifeEvt.exited l).isCreated = false := rfl

theorem isExited_created (l : L) : (LifeEvt.created l).isExited = false := rfl

theorem isExited_exited (l : L) : (LifeEvt.exited l).isExited = true := rfl

theorem StackOK_count {a b : List L} {tr : List (LifeEvt L)}
    (h : StackOK a tr b) :
    tr.countP LifeEvt.isCreated + a.length =
      tr.countP LifeEvt.isExited + b.length := by
  induction h with
  | nil => rfl
  | push h ih =>
    simp only [List.length_cons] at ih
    simp [List.countP_cons, isCreated_created, isExited_created]
    omega
  | pop h ih =>
    simp [List.countP_cons, isCreated_exited, isExited_exited,
      List.length_cons]
    omega

theorem slotClose_ok {M : ChildModel σ C I E L} {pend : σ → List L}
    (hB : Balanced M pend) (sl : Slot σ) :
    StackOK (slotPend pend sl) (slotClose M sl) [] := by
  cases sl with
  | empty => exact .nil
  | exhausted => exact .nil
  | live s =>
    have h := hB.close_eq s
    simp only [slotClose, slotPend, h]
    exact StackOK_exitAll _

theorem addTr_ok {pend : σ → List L} {before mid : List L}
    {pre : List (LifeEvt L)} {r : DispRes σ C I E L}
    (h1 : StackOK before pre mid) (h2 : DResOK pend mid r) :
    DResOK pend before (r.addTr pre) := by
  cases r with
  | yielded c v e cfg tr => exact StackOK_append h1 h2
  | finished tr => exact StackOK_append h1 h2
  | fault tr => exact StackOK_append h1 h2
  | nofuel => trivial

/-- Life-cycle correctness of one dispatcher resumption: starting from the
open instances of its held child, the emitted trace is well bracketed and
ends with the open instances of the new configuration (none on
termination or fault — everything has been closed). -/
theorem dispStep_ok {M : ChildModel σ C I E L} {pend : σ → List L}
    (tf : C → Option I × Option E → Option I) [DecidableEq I]
    (hB : Balanced M pend) :
    ∀ (f : Nat) (cfg : DispCfg σ I) (ctx : C) (evt : Option E),
      DResOK pend (slotPend pend cfg.slot) (dispStep M tf f cfg ctx evt).1 := by
  intro f
  induction f with
  | zero => intro cfg ctx evt; trivial
  | succ f ih =>
    intro cfg ctx evt
    rw [dispStep]
    rcases htf : tf ctx (cfg.state_id, evt) with _ | nxt <;> simp only [htf]
    · exact slotClose_ok hB cfg.slot
    · by_cases hsid : cfg.state_id = some nxt
      · rw [if_pos hsid]
        rcases hslot : cfg.slot with _ | s | _ <;> simp only [hslot]
        · simp only [DResOK, hslot, slotPend]
          exact .nil
        · rcases hsend : M.send s ctx nxt evt with ⟨c2, vec, e2, s2, tr⟩ |
            tr | tr | _ <;> simp only [hsend]
          · have h := hB.send_ok s ctx nxt evt
            rw [hsend] at h
            simpa [DResOK, slotPend, hslot] using h
          · have h := hB.send_ok s ctx nxt evt
            rw [hsend] at h
            have h2 := ih ⟨some nxt, .exhausted⟩ ctx none
            simp only [slotPend] at h2
            simp only [DResOK, slotPend, hslot]
            exact addTr_ok h h2
          · have h := hB.send_ok s ctx nxt evt
            rw [hsend] at h
            simpa [DResOK, slotPend, hslot] using h
          · trivial
        · have h2 := ih cfg ctx none
          simpa [slotPend, hslot] using h2
      · rw [if_neg hsid]
        have hcl : StackOK (slotPend pend cfg.slot) (slotClose M cfg.slot) [] :=
          slotClose_ok hB cfg.slot
        rcases hstart : M.start ctx nxt evt with ⟨c2, vec, e2, s2, tr⟩ |
          tr | tr | _ <;> simp only [hstart]
        · have h := hB.start_ok ctx nxt evt
          rw [hstart] at h
          exact StackOK_append hcl h
        · have h := hB.start_ok ctx nxt evt
          rw [hstart] at h
          have h2 := ih ⟨some nxt, .exhausted⟩ ctx none
          simp only [slotPend] at h2
          exact addTr_ok (StackOK_append hcl h) h2
        · have h := hB.start_ok ctx nxt evt
          rw [hstart] at h
          exact StackOK_append hcl h
        · trivial

theorem dispResume_ok {M : ChildModel σ C I E L} {pend : σ → List L}
    {tf : C → Option I × Option E → Option I} [DecidableEq I]
    (hB : Balanced M pend) (f : Nat) (cfg : DispCfg σ I) (ctx : C)
    (sv : Option (List I)) (e : Option E) :
    DResOK pend (slotPend pend cfg.slot) (dispResume M tf f cfg ctx sv e).1 := by
  rw [dispResume]
  split
  · exact slotClose_ok hB cfg.slot
  · exact dispStep_ok tf hB f cfg ctx e

theorem dispRunAux_ok {M : ChildModel σ C I E L} {pend : σ → List L}
    {tf : C → Option I × Option E → Option I} [DecidableEq I]
    (hB : Balanced M pend) (f : Nat) :
    ∀ (acts : List (CallerAct C I E))
      (r : DispRes σ C I E L × DispStats C I E) (before : List L),
      DResOK pend before r.1 →
      (dispRunAux M tf f acts r).2.2.1 ≠ .fuelOut →
      StackOK before (dispRunAux M tf f acts r).2.1 [] := by
  intro acts
  induction acts with
  | nil =>
    intro r before hok hend
    rcases r with ⟨res, st⟩
    cases res with
    | finished tr => exact hok
    | fault tr => exact hok
    | nofuel => exact absurd rfl hend
    | yielded c v e cfg tr =>
      exact StackOK_append hok (slotClose_ok hB cfg.slot)
  | cons a t ih =>
    intro r before hok hend
    rcases r with ⟨res, st⟩
    cases res with
    | finished tr => exact hok
    | fault tr => exact hok
    | nofuel => exact absurd rfl hend
    | yielded c v e cfg tr =>
      cases a with
      | closeA => exact StackOK_append hok (slotClose_ok hB cfg.slot)
      | sendA c2 sv e2 =>
        simp only [dispRunAux] at hend ⊢
        exact StackOK_append hok
          (ih (dispResume M tf f cfg c2 sv e2) _
            (dispResume_ok hB f cfg c2 sv e2) hend)

/-- C5.  Closing guarantee.  Part 1: for every driven run of a dispatcher
over a `Balanced` child model — any inputs, ending in transition-function
termination (`term`), a propagated application fault (`errEnd`), or a
caller-initiated/abandonment close (`closedBy`), i.e. anything but fuel
exhaustion of the model — the life-cycle trace of the whole run is well
bracketed from the empty stack to the empty stack: every state instance
created during the run has its exit action fire exactly once, afterwards,
and instances close innermost-first, so the exit actions of nested
children fire before the exit action of their parent; in particular
creations and exits are equinumerous.  Part 2: the guarantee composes
through nesting — a dispatcher wrapped as a child state of an enclosing
machine is itself a `Balanced` child model, its open instances being those
of its held child. -/
theorem c5_close_guarantee (M : ChildModel σ C I E L)
    (tf : C → Option I × Option E → Option I) [DecidableEq I]
    (pend : σ → List L) :
    (Balanced M pend →
      ∀ (f : Nat) (c0 : C) (s0 : Option I) (e0 : Option E)
        (acts : List (CallerAct C I E)),
        (dispRun M tf f c0 s0 e0 acts).2.2.1 ≠ .fuelOut →
        StackOK [] (dispRun M tf f c0 s0 e0 acts).2.1 [] ∧
        (dispRun M tf f c0 s0 e0 acts).2.1.countP LifeEvt.isCreated =
          (dispRun M tf f c0 s0 e0 acts).2.1.countP LifeEvt.isExited) ∧
    (Balanced M pend →
      ∀ (fuel : Nat) (init : C → I → Option E → Option I × Option E),
        Balanced (dispChild M tf fuel init)
          (fun cfg => slotPend pend cfg.slot)) := by
  constructor
  · intro hB f c0 s0 e0 acts hend
    have hok : StackOK [] (dispRun M tf f c0 s0 e0 acts).2.1 [] := by
      refine dispRunAux_ok hB f acts _ [] ?_ hend
      have h := dispStep_ok tf hB f ⟨s0, .empty⟩ c0 e0
      simpa [slotPend] using h
    refine ⟨hok, ?_⟩
    have h := StackOK_count hok
    simpa using h
  · intro hB fuel init
    refine ⟨?_, ?_, ?_⟩
    · intro cfg
      cases hslot : cfg.slot with
      | empty => simp [dispChild, slotClose, slotPend, hslot]
      | exhausted => simp [dispChild, slotClose, slotPend, hslot]
      | live s => simp [dispChild, slotClose, slotPend, hslot, hB.close_eq s]
    · intro c i e
      have h := dispStep_ok tf hB fuel ⟨(init c i e).1, .empty⟩ c
        (init c i e).2
      simp only [slotPend] at h
      simp only [dispChild, dispStart]
      rcases hres : (dispStep M tf fuel ⟨(init c i e).1, .empty⟩ c
          (init c i e).2).1 with ⟨c2, vec, e2, cfg2, tr⟩ | tr | tr | _ <;>
        rw [hres] at h
      all_goals
        rcases hpair : dispStep M tf fuel ⟨(init c i e).1, .empty⟩ c
          (init c i e).2 with ⟨res, st⟩
        rw [hpair] at hres
        subst hres
        exact h
    · intro cfg c i e
      simp only [dispChild]
      split
      · exact slotClose_ok hB cfg.slot
      · have h := dispStep_ok tf hB fuel cfg c e
        rcases hpair : dispStep M tf fuel cfg c e with ⟨res, st⟩
        rw [hpair] at h
        cases res <;> exact h

/-- Witness for C5: the labelled boolean machine driven through one
transition and then abandoned closes `false` then `true`, each exactly
once, with a well-bracketed trace; and the dispatcher over the labelled
leaf is itself a `Balanced` child model. -/
theorem c5_close_guarantee_witness :
    (StackOK []
      (dispRun labLeaf tLab 10 () none none [.sendA () none (some true)]).2.1
      [] ∧
     (dispRun labLeaf tLab 10 () none none
         [.sendA () none (some true)]).2.1.countP LifeEvt.isCreated =
       (dispRun labLeaf tLab 10 () none none
         [.sendA () none (some true)]).2.1.countP LifeEvt.isExited) ∧
    Balanced (dispChild labLeaf tLab 5 (fun _ _ _ => (none, none)))
      (fun cfg => slotPend labPend cfg.slot) ∧
    (dispRun labLeaf tLab 10 () none none [.sendA () none (some true)]).2.1 =
      [.created false, .exited false, .created true, .exited true] := by
  have hB : Balanced labLeaf labPend :=
    ⟨fun s => rfl, fun c i e => .push .nil, fun s c i e => .nil⟩
  refine ⟨?_, ?_, by decide⟩
  · exact (c5_close_guarantee labLeaf tLab labPend).1 hB 10 () none none
      [.sendA () none (some true)] (by decide)
  · exact (c5_close_guarantee labLeaf tLab labPend).2 hB 5
      (fun _ _ _ => (none, none))

end PySM
